import Mathlib

/-!
# Verification of the AiTerm core (src/main.py)

A shallow embedding of the `AITerminal` core of `src/main.py`:

* `strip_ansi_codes`  — the six-stage regex stripping pipeline (lines 748-756);
* `processClean`      — the character loop of `update_terminal_display`
                        acting on the tk text widget (lines 762-792);
* `processChunk`      — one iteration of the reader loop
                        `read_terminal_output` (lines 725-746), sequentialized
                        with the decode of that chunk;
* `detect_error`      — the failure-analysis dispatch (lines 1028-1045);
* `step`              — the assistant workflow transitions: `ask_ai` /
                        `get_command_suggestion` result arrival /
                        `execute_pending_command` / `cancel_pending_command`
                        (lines 860-1026).

Text is modelled as `List Char` (the Python code operates on `str`).  The
tk text widget is modelled by the sequence of characters inserted into it:
the widget itself additionally holds an automatic trailing newline after
the inserted text, which is reflected in the index arithmetic of the
backspace and carriage-return branches below.
-/

namespace AiTerm

/-! ## Character classes of the regexes in `strip_ansi_codes` -/

/-- First alternative of `ansi_escape` after `ESC`: the class `[@-Z\\-_]`,
i.e. `0x40`–`0x5A` together with the range `\`–`_` = `0x5C`–`0x5F`.
(Note `]` = `0x5D` lies in this class, so the OSC alternative of
`ansi_escape` is shadowed by this one.) -/
def inAlt1 (c : Char) : Bool :=
  (0x40 ≤ c.toNat && c.toNat ≤ 0x5A) || (0x5C ≤ c.toNat && c.toNat ≤ 0x5F)

/-- CSI parameter bytes `[0-?]` = `0x30`–`0x3F`. -/
def isParamB (c : Char) : Bool := 0x30 ≤ c.toNat && c.toNat ≤ 0x3F

/-- CSI intermediate bytes `0x20`–`0x2F` (space through slash). -/
def isInterB (c : Char) : Bool := 0x20 ≤ c.toNat && c.toNat ≤ 0x2F

/-- CSI final bytes `[@-~]` = `0x40`–`0x7E`. -/
def isFinalB (c : Char) : Bool := 0x40 ≤ c.toNat && c.toNat ≤ 0x7E

/-- ASCII whitespace class `\s` of the Python regexes:
space, `\t`, `\n`, `\r`, `\x0b`, `\x0c`. -/
def isSpaceB (c : Char) : Bool :=
  c == ' ' || c == '\t' || c == '\n' || c == '\r' || c == '\x0b' || c == '\x0c'

/-- Characters an OSC body may contain: `[^\x07\x1B]`. -/
def notOscEnd (c : Char) : Bool := c != '\x07' && c != '\x1b'

/-! ## Matchers, one per regex.

Each matcher takes the text starting at a candidate position and returns the
total length of a match anchored at that position, or `none`.  All patterns
have pairwise disjoint adjacent character classes, so Python's greedy
matching with backtracking coincides with the straightforward maximal-run
parses below.  Every successful match has length at least one. -/

/-- Tail of a CSI sequence after `ESC [`: parameter bytes, then intermediate bytes, then one final byte;
returns the number of characters consumed. -/
def csiTail (l : List Char) : Option Nat :=
  let ps := l.takeWhile isParamB
  let r1 := l.dropWhile isParamB
  let ib := r1.takeWhile isInterB
  let r2 := r1.dropWhile isInterB
  match r2 with
  | f :: _ => if isFinalB f then some (ps.length + ib.length + 1) else none
  | [] => none

/-- Tail of an OSC sequence after the introducer: `[^\x07\x1B]*(?:\x07|\x1B\\)`;
returns the number of characters consumed. -/
def oscTail (l : List Char) : Option Nat :=
  let body := l.takeWhile notOscEnd
  match l.dropWhile notOscEnd with
  | [] => none
  | t :: rest =>
    if t = '\x07' then some (body.length + 1)
    else  -- t = ESC here: the body class excludes exactly BEL and ESC
      match rest with
      | u :: _ => if u = '\\' then some (body.length + 2) else none
      | [] => none

/-- The compiled `self.ansi_escape` pattern
ESC then one of: a single byte in `[@-Z\\-_]`; a CSI body (parameter bytes,
intermediate bytes, one final byte); or an OSC body ended by BEL or ESC-backslash.
The alternatives are tried in order; since `]` belongs to the first
class, the third alternative is unreachable but kept for faithfulness. -/
def matchAnsi : List Char → Option Nat
  | [] => none
  | c :: cs =>
    if c = '\x1b' then
      match cs with
      | [] => none
      | d :: rest =>
        if inAlt1 d then some 2
        else if d = '[' then
          match csiTail rest with
          | some n => some (n + 2)
          | none => none
        else if d = ']' then
          match oscTail rest with
          | some n => some (n + 2)
          | none => none
        else none
    else none

/-- The second substitution's pattern `\x1B\][^\x07\x1B]*(?:\x07|\x1B\\)`. -/
def matchOscSeq : List Char → Option Nat
  | [] => none
  | c :: cs =>
    if c = '\x1b' then
      match cs with
      | d :: rest =>
        if d = ']' then
          match oscTail rest with
          | some n => some (n + 2)
          | none => none
        else none
      | [] => none
    else none

/-- The third substitution's pattern `\x9D[^\x9C]*\x9C`. -/
def matchC1Osc : List Char → Option Nat
  | [] => none
  | c :: cs =>
    if c = '\x9d' then
      let body := cs.takeWhile (fun x => x != '\x9c')
      match cs.dropWhile (fun x => x != '\x9c') with
      | _ :: _ => some (body.length + 2)
      | [] => none
    else none

/-- One `\d+;` group: maximal digit run followed by a semicolon.
Returns the consumed length and the remainder. -/
def digitsSemi (l : List Char) : Option (Nat × List Char) :=
  let ds := l.takeWhile Char.isDigit
  if ds.isEmpty then none
  else
    match l.dropWhile Char.isDigit with
    | x :: r2 => if x = ';' then some (ds.length + 1, r2) else none
    | [] => none

/-- The fourth substitution's pattern `^\d+;\d+;\d+;\d+\s+`
(anchoring is handled by the scanner). -/
def matchQuad (l : List Char) : Option Nat :=
  match digitsSemi l with
  | none => none
  | some (n1, r1) =>
    match digitsSemi r1 with
    | none => none
    | some (n2, r2) =>
      match digitsSemi r2 with
      | none => none
      | some (n3, r3) =>
        let ds := r3.takeWhile Char.isDigit
        if ds.isEmpty then none
        else
          let rest4 := r3.dropWhile Char.isDigit
          let ws := rest4.takeWhile isSpaceB
          if ws.isEmpty then none
          else some (n1 + n2 + n3 + ds.length + ws.length)

/-- The fifth substitution's pattern `\d+;\d+;\d+;\d+\s+[-\\|/]\s+`. -/
def matchSpin (l : List Char) : Option Nat :=
  match digitsSemi l with
  | none => none
  | some (n1, r1) =>
    match digitsSemi r1 with
    | none => none
    | some (n2, r2) =>
      match digitsSemi r2 with
      | none => none
      | some (n3, r3) =>
        let ds := r3.takeWhile Char.isDigit
        if ds.isEmpty then none
        else
          let rest4 := r3.dropWhile Char.isDigit
          let ws1 := rest4.takeWhile isSpaceB
          if ws1.isEmpty then none
          else
            match rest4.dropWhile isSpaceB with
            | [] => none
            | sp :: rest5 =>
              if sp = '-' || sp = '\\' || sp = '|' || sp = '/' then
                let ws2 := rest5.takeWhile isSpaceB
                if ws2.isEmpty then none
                else some (n1 + n2 + n3 + ds.length + ws1.length + 1 + ws2.length)
              else none

/-- The sixth substitution's pattern `^\d+;[^\n\r]+?(?=\n|\r|$)`
(anchoring handled by the scanner).  The lazy body must stop exactly at
the next `\n`/`\r`/end-of-string, i.e. it is the maximal run of
non-CR/LF characters, required nonempty. -/
def matchLineJunk (l : List Char) : Option Nat :=
  match digitsSemi l with
  | none => none
  | some (n1, r1) =>
    let body := r1.takeWhile (fun c => c != '\n' && c != '\r')
    if body.isEmpty then none else some (n1 + body.length)

/-- Whether the last character of `l` is a newline (used to track the
`re.MULTILINE` `^` anchor across a removed match). -/
def nlLast (l : List Char) : Bool := l.getLastD 'x' == '\n'

/-- Generic model of `re.sub(pattern, '', text)`: scan left to right; at
each position try the matcher (for an `^`-anchored `re.MULTILINE` pattern
only at line starts), remove a match and continue after it, otherwise keep
the character.  `fuel` bounds the iteration count; every match consumes at
least one character, so `fuel = l.length` reproduces the unbounded scan. -/
def subScanF (m : List Char → Option Nat) (anchored : Bool) :
    Nat → Bool → List Char → List Char
  | 0, _, l => l
  | _ + 1, _, [] => []
  | f + 1, atStart, c :: cs =>
    if !anchored || atStart then
      match m (c :: cs) with
      | some n =>
        subScanF m anchored f (nlLast ((c :: cs).take n)) ((c :: cs).drop n)
      | none => c :: subScanF m anchored f (c == '\n') cs
    else c :: subScanF m anchored f (c == '\n') cs

/-- Model of `re.sub(pattern, '', text)` with sufficient fuel. -/
def subScan (m : List Char → Option Nat) (anchored : Bool) (l : List Char) :
    List Char :=
  subScanF m anchored l.length true l

/-- Source method `AITerminal.strip_ansi_codes` (src/main.py lines 748-756): the six
substitutions applied in source order. -/
def strip_ansi_codes (l : List Char) : List Char :=
  subScan matchLineJunk true
    (subScan matchSpin false
      (subScan matchQuad true
        (subScan matchC1Osc false
          (subScan matchOscSeq false
            (subScan matchAnsi false l)))))

/-! ## The display-update character loop -/

/-- The backspace branch of `update_terminal_display`: the widget content
returned by `get('1.0', END)` is the inserted text plus the automatic
trailing newline, so the `len(...) > 1` guard means the inserted text is
nonempty, and `delete(END-2c)` removes its last character. -/
def bsDelete (buf : List Char) : List Char :=
  if buf.length + 1 > 1 then buf.dropLast else buf

/-- The lone-carriage-return branch of `update_terminal_display`:
`delete(index("end linestart"), "end-1c")`.  tk's `end` index lies just
past the widget's automatic trailing newline and hence at column 0 of the
final (empty) line, so `end linestart` equals `end`; the requested range
ends (`end-1c`) before it starts, and tk's `delete` removes nothing when
the second index is not later than the first.  The branch is therefore a
no-op on the widget. -/
def crRewrite (buf : List Char) : List Char := buf

/-- The `i + 1 < len(clean_output) and clean_output[i+1] == '\n'` test. -/
def crPaired : List Char → Bool
  | d :: _ => d == '\n'
  | [] => false

/-- The character loop of `AITerminal.update_terminal_display`
(src/main.py lines 769-786) applied to one stripped chunk: backspace/DEL
delete the previous character, a `\r` followed by `\n` is skipped, a lone
`\r` triggers the (empty) line-rewrite delete, and every other character
is inserted at the end. -/
def processClean : List Char → List Char → List Char
  | buf, [] => buf
  | buf, c :: cs =>
    if c = '\x08' ∨ c = '\x7f' then processClean (bsDelete buf) cs
    else if c = '\r' then
      processClean (if crPaired cs then buf else crRewrite buf) cs
    else processClean (buf ++ [c]) cs

/-- Decoding one chunk into the terminal buffer: `strip_ansi_codes`
followed by the character loop (`List Char` version). -/
def decodeChunkL (buf chunk : List Char) : List Char :=
  processClean buf (strip_ansi_codes chunk)

/-- Decoding one chunk, `String` version. -/
def decodeChunk (buf : List Char) (c : String) : List Char :=
  decodeChunkL buf c.data

/-- Feeding a sequence of chunks in order. -/
def decodeChunks (buf : List Char) (cs : List String) : List Char :=
  cs.foldl decodeChunk buf

/-- Feeding a sequence of chunks in order, `List Char` version. -/
def decodeChunksL (buf : List Char) (cs : List (List Char)) : List Char :=
  cs.foldl decodeChunkL buf

/-! ## Application state and the workflow -/

/-- The mutable state of `AITerminal` relevant to the core, plus two
observation logs: `writes` records every payload passed to
`self.process.write` and `emits` records every failure-analysis request
dispatched to `troubleshoot_error` (command, joined error output). -/
structure AppState where
  isWindows : Bool
  hasProcess : Bool
  groqClient : Bool
  pendingCommand : Option String
  lastCommand : String
  outputBuffer : List String
  terminalBuffer : List Char
  writes : List String
  emits : List (String × String)
deriving DecidableEq, Repr

/-- Model of `data.replace('\n', '\r\n')` for the one-character pattern `'\n'`. -/
def replaceNl : List Char → List Char
  | [] => []
  | c :: cs =>
    if c = '\n' then '\r' :: '\n' :: replaceNl cs else c :: replaceNl cs

/-- Outgoing line-ending translation done inside `write_to_terminal`:
on Windows every `\n` becomes `\r\n`. -/
def lineEnding (isWin : Bool) (d : String) : String :=
  if isWin then String.mk (replaceNl d.data) else d

/-- Source method `AITerminal.write_to_terminal` (lines 840-845): writes only when a
process exists, translating line endings on Windows. -/
def write_to_terminal (s : AppState) (d : String) : AppState :=
  if s.hasProcess then
    { s with writes := s.writes ++ [lineEnding s.isWindows d] }
  else s

/-- The five error keywords of `read_terminal_output` (line 741). -/
def errKeywords : List String :=
  ["command not found", "no such file", "permission denied", "error", "cannot"]

/-- Test whether `pat` is an initial segment of `l`. -/
def startsWith : List Char → List Char → Bool
  | [], _ => true
  | _ :: _, [] => false
  | a :: as, b :: bs => a == b && startsWith as bs

/-- Test whether `pat` occurs as a contiguous segment of `l` (Python's `in` on `str`). -/
def hasSub (pat : List Char) : List Char → Bool
  | [] => pat.isEmpty
  | c :: rest => startsWith pat (c :: rest) || hasSub pat rest

/-- Model of `any(error in output.lower() for error in [...])` (lines 740-741). -/
def keywordMatch (c : String) : Bool :=
  errKeywords.any fun k => hasSub k.data (c.data.map Char.toLower)

/-- The clear-screen test of `read_terminal_output` (line 731):
`'\x1b[2J' in output or '\x1b[H\x1b[2J' in output or '\x1b[3J' in output`
(the second disjunct is subsumed by the first, kept for faithfulness). -/
def containsClear (c : String) : Bool :=
  hasSub "\x1b[2J".data c.data || hasSub "\x1b[H\x1b[2J".data c.data ||
    hasSub "\x1b[3J".data c.data

/-- Python `l[-n:]` for `n > 0`: the last `n` entries (all of `l` when it
is shorter). -/
def lastN {α : Type} (n : Nat) (l : List α) : List α :=
  l.drop (l.length - n)

/-- The history trim of `read_terminal_output` (lines 737-738): after an
append, a buffer longer than 100 entries is cut to its last 50. -/
def trimBuf (l : List String) : List String :=
  if 100 < l.length then lastN 50 l else l

/-- Source method `AITerminal.detect_error` (lines 1028-1045): bail out if there is no
last command or no Groq client; otherwise dispatch an analysis request
carrying the last command and the join of the last 20 history entries,
then clear the last command. -/
def detect_error (s : AppState) : AppState :=
  if s.lastCommand = "" ∨ s.groqClient = false then s
  else
    { s with
      emits := s.emits ++ [(s.lastCommand, String.join (lastN 20 s.outputBuffer))],
      lastCommand := "" }

/-- The error-trigger test at the end of the reader-loop body (lines
740-742): `if self.last_command and any(error in output.lower() ...)`. -/
def detectStep (s : AppState) (c : String) : AppState :=
  if s.lastCommand ≠ "" ∧ keywordMatch c = true then detect_error s else s

/-- The buffer effects of one reader-loop iteration for chunk `c`: a
recognized clear sequence resets the display first
(`clear_terminal_screen`, scheduled with `root.after(0, ...)` before the
50 ms drain decodes the chunk), the chunk is decoded into the terminal
buffer, and appended to `output_buffer` (trimming on overflow). -/
def midChunk (s : AppState) (c : String) : AppState :=
  { s with
    terminalBuffer :=
      decodeChunk (if containsClear c then [] else s.terminalBuffer) c,
    outputBuffer := trimBuf (s.outputBuffer ++ [c]) }

/-- One iteration of the reader loop `read_terminal_output` (lines
727-742) for the chunk `c`, sequentialized with the decode of that chunk
by `update_terminal_display`: the buffer effects of `midChunk` followed
by the error heuristic, which reads `output_buffer` after the append and
only touches `emits`/`lastCommand`. -/
def processChunk (s : AppState) (c : String) : AppState :=
  detectStep (midChunk s c) c

/-- The externally triggered transitions of the workflow:

* `submit q`   — `ask_ai` (lines 860-883): records chat history and spawns
  `get_command_suggestion` in a thread; it does **not** touch
  `pending_command`, `last_command` or the terminal;
* `arrive cmd` — a suggestion result marshalled back through
  `root.after(0, show_command_suggestion)` (lines 915, 922-995): installs
  `cmd` as the pending command, unconditionally;
* `fail msg`   — the exception branch of `get_command_suggestion`
  (lines 918-920): chat message only;
* `confirm`    — `execute_pending_command` (lines 1003-1019);
* `reject`     — `cancel_pending_command` (lines 1021-1026);
* `chunk c`    — one reader-loop iteration for output chunk `c`. -/
inductive Ev where
  | submit (q : String)
  | arrive (cmd : String)
  | fail (msg : String)
  | confirm
  | reject
  | chunk (c : String)
deriving DecidableEq, Repr

/-- The transition function of the workflow (source lines as in `Ev`).
`confirm` follows `execute_pending_command` exactly: its guard
`if self.pending_command:` is Python truthiness, so it acts only when a
pending command exists **and** is nonempty; then the command becomes
`last_command`, `output_buffer` is cleared, the command plus `'\n'` is
written via `write_to_terminal`, and the pending command is cleared.
With no pending command, or an empty one, nothing happens. -/
def step (s : AppState) : Ev → AppState
  | .submit _ => s
  | .arrive cmd => { s with pendingCommand := some cmd }
  | .fail _ => s
  | .confirm =>
    match s.pendingCommand with
    | some c =>
      -- `if self.pending_command:` — Python truthiness: the empty string
      -- is falsy, so an empty pending command makes confirm a no-op.
      if c = "" then s
      else
        let s1 := { s with lastCommand := c, outputBuffer := [] }
        let s2 := write_to_terminal s1 (c ++ "\n")
        { s2 with pendingCommand := none }
    | none => s
  | .reject => { s with pendingCommand := none }
  | .chunk c => processChunk s c

/-- A run of the workflow over a sequence of events. -/
def runEvents (s : AppState) (es : List Ev) : AppState :=
  es.foldl step s

/-- The state at startup (`__init__`, lines 62-69), for a configured
client on a Unix platform with a live pty. -/
def init0 : AppState :=
  AppState.mk false true true none "" [] [] [] []

/-! ## Helper lemmas about the stripping scanners -/

theorem mem_of_mem_dropWhile {p : Char → Bool} {l : List Char} {a : Char}
    (h : a ∈ l.dropWhile p) : a ∈ l :=
  (List.dropWhile_sublist p (l := l)).mem h

theorem digitsSemi_none {l : List Char} (h : (';' : Char) ∉ l) :
    digitsSemi l = none := by
  unfold digitsSemi
  by_cases hds : (l.takeWhile Char.isDigit).isEmpty
  · simp [hds]
  · simp only [hds, if_false]
    cases hd : l.dropWhile Char.isDigit with
    | nil => rfl
    | cons x r2 =>
      have hx : x ∈ l := mem_of_mem_dropWhile (hd ▸ List.mem_cons_self x r2)
      have hne : x ≠ ';' := fun he => h (he ▸ hx)
      simp [hne]

theorem matchAnsi_none {l : List Char} (h : ∀ c ∈ l, c ≠ '\x1b') :
    matchAnsi l = none := by
  cases l with
  | nil => rfl
  | cons c cs =>
    have : c ≠ '\x1b' := h c (List.mem_cons_self c cs)
    simp [matchAnsi, this]

theorem matchOscSeq_none {l : List Char} (h : ∀ c ∈ l, c ≠ '\x1b') :
    matchOscSeq l = none := by
  cases l with
  | nil => rfl
  | cons c cs =>
    have : c ≠ '\x1b' := h c (List.mem_cons_self c cs)
    simp [matchOscSeq, this]

theorem matchC1Osc_none {l : List Char} (h : ∀ c ∈ l, c ≠ '\x9d') :
    matchC1Osc l = none := by
  cases l with
  | nil => rfl
  | cons c cs =>
    have : c ≠ '\x9d' := h c (List.mem_cons_self c cs)
    simp [matchC1Osc, this]

theorem matchQuad_none {l : List Char} (h : (';' : Char) ∉ l) :
    matchQuad l = none := by
  unfold matchQuad
  rw [digitsSemi_none h]

theorem matchSpin_none {l : List Char} (h : (';' : Char) ∉ l) :
    matchSpin l = none := by
  unfold matchSpin
  rw [digitsSemi_none h]

theorem matchLineJunk_none {l : List Char} (h : (';' : Char) ∉ l) :
    matchLineJunk l = none := by
  unfold matchLineJunk
  rw [digitsSemi_none h]

/-- A scanner whose matcher never fires on lists of `P`-characters keeps
the text unchanged. -/
theorem subScanF_id (m : List Char → Option Nat) (anchored : Bool)
    {P : Char → Prop} (hm : ∀ t : List Char, (∀ c ∈ t, P c) → m t = none)
    (f : Nat) (fl : Bool) (l : List Char) (hl : ∀ c ∈ l, P c) :
    subScanF m anchored f fl l = l := by
  induction f generalizing fl l with
  | zero => rfl
  | succ f ih =>
    cases l with
    | nil => rfl
    | cons c cs =>
      have h0 : m (c :: cs) = none := hm _ hl
      have hcs : ∀ x ∈ cs, P x := fun x hx => hl x (List.mem_cons_of_mem _ hx)
      unfold subScanF
      split
      · rw [h0]
        rw [ih _ _ hcs]
      · rw [ih _ _ hcs]

theorem subScan_id (m : List Char → Option Nat) (anchored : Bool)
    {P : Char → Prop} (hm : ∀ t : List Char, (∀ c ∈ t, P c) → m t = none)
    (l : List Char) (hl : ∀ c ∈ l, P c) :
    subScan m anchored l = l :=
  subScanF_id m anchored hm l.length true l hl

/-- On text with no `ESC`, no `0x9D` and no `;`, all six substitutions of
`strip_ansi_codes` are identities. -/
theorem strip_ansi_codes_id {l : List Char}
    (h : ∀ c ∈ l, c ≠ '\x1b' ∧ c ≠ '\x9d' ∧ c ≠ ';') :
    strip_ansi_codes l = l := by
  have hE : ∀ c ∈ l, c ≠ '\x1b' := fun c hc => (h c hc).1
  have hD : ∀ c ∈ l, c ≠ '\x9d' := fun c hc => (h c hc).2.1
  have hS : (';' : Char) ∉ l := fun hc => (h _ hc).2.2 rfl
  have hS' : ∀ c ∈ l, c ≠ ';' := fun c hc he => hS (he ▸ hc)
  unfold strip_ansi_codes
  rw [@subScan_id matchAnsi false (fun c => c ≠ '\x1b')
      (fun t ht => matchAnsi_none ht) l hE,
    @subScan_id matchOscSeq false (fun c => c ≠ '\x1b')
      (fun t ht => matchOscSeq_none ht) l hE,
    @subScan_id matchC1Osc false (fun c => c ≠ '\x9d')
      (fun t ht => matchC1Osc_none ht) l hD,
    @subScan_id matchQuad true (fun c => c ≠ ';')
      (fun t ht => matchQuad_none fun hc => ht ';' hc rfl) l hS',
    @subScan_id matchSpin false (fun c => c ≠ ';')
      (fun t ht => matchSpin_none fun hc => ht ';' hc rfl) l hS',
    @subScan_id matchLineJunk true (fun c => c ≠ ';')
      (fun t ht => matchLineJunk_none fun hc => ht ';' hc rfl) l hS']

/-! ## Helper lemmas about the display character loop -/

/-- Unfolding equation for the cons case of `processClean`. -/
theorem processClean_cons (buf : List Char) (c : Char) (cs : List Char) :
    processClean buf (c :: cs) =
      if c = '\x08' ∨ c = '\x7f' then processClean (bsDelete buf) cs
      else if c = '\r' then
        processClean (if crPaired cs then buf else crRewrite buf) cs
      else processClean (buf ++ [c]) cs := rfl

/-- A carriage return never changes the buffer: when followed by `\n` the
loop skips it, and otherwise the attempted tk line-rewrite deletes the
empty range (`crRewrite`). -/
theorem processClean_cr (buf cs : List Char) :
    processClean buf ('\r' :: cs) = processClean buf cs := by
  have h1 : ¬(('\r' : Char) = '\x08' ∨ ('\r' : Char) = '\x7f') := by decide
  rw [processClean_cons, if_neg h1, if_pos rfl, crRewrite, ite_self]

/-- The per-character effect of the loop. -/
def emitChar (buf : List Char) (c : Char) : List Char :=
  if c = '\x08' ∨ c = '\x7f' then bsDelete buf
  else if c = '\r' then buf
  else buf ++ [c]

/-- The loop is a left fold of `emitChar`: the one-character lookahead at
`\r` does not influence the resulting buffer. -/
theorem processClean_eq_foldl (l : List Char) (buf : List Char) :
    processClean buf l = l.foldl emitChar buf := by
  induction l generalizing buf with
  | nil => rfl
  | cons c cs ih =>
    rw [List.foldl_cons, ← ih]
    by_cases h1 : c = '\x08' ∨ c = '\x7f'
    · rw [processClean_cons, if_pos h1]
      unfold emitChar
      rw [if_pos h1]
    · by_cases h2 : c = '\r'
      · subst h2
        rw [processClean_cr]
        unfold emitChar
        rw [if_neg h1, if_pos rfl]
      · rw [processClean_cons, if_neg h1, if_neg h2]
        unfold emitChar
        rw [if_neg h1, if_neg h2]

theorem processClean_append (buf a b : List Char) :
    processClean buf (a ++ b) = processClean (processClean buf a) b := by
  simp [processClean_eq_foldl, List.foldl_append]

/-- On text free of backspace, DEL and carriage return, the loop appends
the text verbatim. -/
theorem processClean_clean {l : List Char}
    (h : ∀ c ∈ l, c ≠ '\x08' ∧ c ≠ '\x7f' ∧ c ≠ '\r') (buf : List Char) :
    processClean buf l = buf ++ l := by
  induction l generalizing buf with
  | nil => simp [processClean]
  | cons c cs ih =>
    obtain ⟨h1, h2, h3⟩ := h c (List.mem_cons_self c cs)
    rw [processClean_cons, if_neg (fun hor => hor.elim h1 h2), if_neg h3,
      ih fun x hx => h x (List.mem_cons_of_mem _ hx)]
    simp

/-! ## `detectStep` and projections of `processChunk` -/

/-- When the trigger condition holds and a client is configured,
`detect_error` emits exactly one analysis request and clears the last
command. -/
theorem detectStep_fire (s : AppState) (c : String)
    (h1 : s.lastCommand ≠ "") (h2 : keywordMatch c = true)
    (hcl : s.groqClient = true) :
    (detectStep s c).emits =
      s.emits ++ [(s.lastCommand, String.join (lastN 20 s.outputBuffer))] ∧
    (detectStep s c).lastCommand = "" := by
  unfold detectStep detect_error
  rw [if_pos ⟨h1, h2⟩,
    if_neg (fun hg => hg.elim h1 fun hf => by
      rw [hcl] at hf
      exact Bool.noConfusion hf)]
  exact ⟨rfl, rfl⟩

/-- With an empty last command the heuristic does nothing. -/
theorem detectStep_skip_empty (s : AppState) (c : String)
    (h0 : s.lastCommand = "") : detectStep s c = s := by
  unfold detectStep
  exact if_neg fun hg => hg.1 h0

/-- With no client, neither the emit log nor the last command changes. -/
theorem detectStep_no_client (s : AppState) (c : String)
    (hcl : s.groqClient = false) :
    (detectStep s c).emits = s.emits ∧
    (detectStep s c).lastCommand = s.lastCommand := by
  unfold detectStep detect_error
  split
  · rw [if_pos (Or.inr hcl)]
    exact ⟨rfl, rfl⟩
  · exact ⟨rfl, rfl⟩

theorem processChunk_writes (s : AppState) (c : String) :
    (processChunk s c).writes = s.writes := by
  unfold processChunk midChunk detectStep detect_error
  repeat' split
  all_goals rfl

theorem processChunk_pendingCommand (s : AppState) (c : String) :
    (processChunk s c).pendingCommand = s.pendingCommand := by
  unfold processChunk midChunk detectStep detect_error
  repeat' split
  all_goals rfl

theorem processChunk_outputBuffer (s : AppState) (c : String) :
    (processChunk s c).outputBuffer = trimBuf (s.outputBuffer ++ [c]) := by
  unfold processChunk midChunk detectStep detect_error
  repeat' split
  all_goals rfl

theorem processChunk_terminalBuffer (s : AppState) (c : String) :
    (processChunk s c).terminalBuffer =
      decodeChunk (if containsClear c then [] else s.terminalBuffer) c := by
  unfold processChunk midChunk detectStep detect_error
  repeat' split
  all_goals rfl

theorem lastN_length_le {α : Type} (n : Nat) (l : List α) :
    (lastN n l).length ≤ n := by
  unfold lastN
  rw [List.length_drop]
  omega

/-! ## The claims -/

/-- C1: the workflow never writes a proposed command's text to the
terminal session without an explicit confirmation: for every state,
suggestion arrival (`arrive`, including replacement of a pending
suggestion), rejection, backend failure, query submission and output
chunks leave the write log unchanged; only `confirm`
(`execute_pending_command`) can extend it, and then exactly with the
pending command's text plus the line terminator. -/
theorem confirm_only_writes (s : AppState) (e : Ev) :
    (step s e).writes = s.writes ∨
      (e = Ev.confirm ∧ ∃ c, s.pendingCommand = some c ∧
        (step s e).writes = s.writes ++ [lineEnding s.isWindows (c ++ "\n")]) := by
  cases e with
  | submit q => exact Or.inl rfl
  | arrive cmd => exact Or.inl rfl
  | fail m => exact Or.inl rfl
  | reject => exact Or.inl rfl
  | chunk c => exact Or.inl (processChunk_writes s c)
  | confirm =>
    cases hp : s.pendingCommand with
    | none => exact Or.inl (by simp [step, hp])
    | some c =>
      by_cases hce : c = ""
      · exact Or.inl (by simp [step, hp, hce])
      · by_cases hpr : s.hasProcess
        · exact Or.inr ⟨rfl, c, rfl,
            by simp [step, hp, write_to_terminal, hpr, hce]⟩
        · exact Or.inl (by simp [step, hp, write_to_terminal, hpr, hce])

/-- Reachable state with a pending command of empty text: the backend's
trimmed reply may be `""`, which `show_command_suggestion` installs
unconditionally. -/
def c2bad : AppState :=
  AppState.mk false true true (some "") "pwd" ["h"] [] [] []

/-- C2 fails as stated for the pending text `c = ""`: the guard
`if self.pending_command:` of `execute_pending_command` is Python
truthiness, so confirming an empty-text PendingCommand performs no
write, leaves the PendingCommand installed and `last_command`
unchanged — where the claim (quantified over every text `c`) asserts a
write of `"\n"`, `last_command := ""` and a cleared PendingCommand. -/
theorem empty_pending_confirm_noop :
    c2bad.pendingCommand = some "" ∧
    (step c2bad Ev.confirm).writes = [] ∧
    (step c2bad Ev.confirm).pendingCommand = some "" ∧
    (step c2bad Ev.confirm).lastCommand = "pwd" ∧
    step c2bad Ev.confirm = c2bad := by decide

/-- C2 amended: confirming a pending command with **nonempty** text `c`
(with a live process) writes `c ++ "\n"` (translated to the platform
line ending on Windows; on non-Windows it is exactly `c ++ "\n"`), sets
`last_command` to `c` and clears the pending command; confirming an
empty-text pending command does nothing (Python truthiness of the
guard); rejecting performs no write, clears the pending command and
leaves `last_command` unchanged. -/
theorem execute_cancel_spec (s : AppState) (c : String)
    (hp : s.pendingCommand = some c) (hpr : s.hasProcess = true)
    (hc : c ≠ "") :
    (step s Ev.confirm).writes =
        s.writes ++ [lineEnding s.isWindows (c ++ "\n")] ∧
    (s.isWindows = false → lineEnding s.isWindows (c ++ "\n") = c ++ "\n") ∧
    (step s Ev.confirm).lastCommand = c ∧
    (step s Ev.confirm).pendingCommand = none ∧
    (step s Ev.reject).writes = s.writes ∧
    (step s Ev.reject).pendingCommand = none ∧
    (step s Ev.reject).lastCommand = s.lastCommand := by
  refine ⟨?_, ?_, ?_, ?_, rfl, rfl, rfl⟩
  · simp [step, hp, write_to_terminal, hpr, hc]
  · intro hw
    simp [lineEnding, hw]
  · simp [step, hp, write_to_terminal, hpr, hc]
  · simp [step, hp, write_to_terminal, hpr, hc]

/-- Concrete state for the C2 witness: suggestion `"ls -la"` pending. -/
def c2s : AppState :=
  AppState.mk false true true (some "ls -la") "pwd" ["h"] [] [] []

/-- Witness for the amended C2 at the spec's own example `"ls -la"`. -/
theorem execute_cancel_spec_witness :
    (step c2s Ev.confirm).writes =
        c2s.writes ++ [lineEnding c2s.isWindows ("ls -la" ++ "\n")] ∧
    (c2s.isWindows = false →
      lineEnding c2s.isWindows ("ls -la" ++ "\n") = "ls -la" ++ "\n") ∧
    (step c2s Ev.confirm).lastCommand = "ls -la" ∧
    (step c2s Ev.confirm).pendingCommand = none ∧
    (step c2s Ev.reject).writes = c2s.writes ∧
    (step c2s Ev.reject).pendingCommand = none ∧
    (step c2s Ev.reject).lastCommand = c2s.lastCommand :=
  execute_cancel_spec c2s "ls -la" rfl rfl (by decide)

/-- C3 is violated by the code (`show_command_suggestion` installs every
arriving result unconditionally, with no request identity): after a
second query supersedes the first, the first request's late-arriving
result replaces the already proposed second suggestion. -/
theorem late_result_installed :
    (runEvents init0 [Ev.submit "list files", Ev.submit "show date",
        Ev.arrive "date"]).pendingCommand = some "date" ∧
    (runEvents init0 [Ev.submit "list files", Ev.submit "show date",
        Ev.arrive "date", Ev.arrive "ls -la"]).pendingCommand =
      some "ls -la" :=
  ⟨rfl, rfl⟩

/-- C4: with a configured client, a chunk matching an error keyword while
`last_command` is nonempty dispatches exactly one analysis request
carrying `last_command` and (the join of) the last at-most-20 history
entries, then clears `last_command`; no dispatch happens when
`last_command` is empty. -/
theorem detect_error_spec (s : AppState) (c : String)
    (hcl : s.groqClient = true) :
    (s.lastCommand ≠ "" → keywordMatch c = true →
      (processChunk s c).emits = s.emits ++
        [(s.lastCommand,
          String.join (lastN 20 (trimBuf (s.outputBuffer ++ [c]))))] ∧
      (processChunk s c).lastCommand = "" ∧
      (lastN 20 (trimBuf (s.outputBuffer ++ [c]))).length ≤ 20) ∧
    (s.lastCommand = "" →
      (processChunk s c).emits = s.emits ∧
      (processChunk s c).lastCommand = s.lastCommand) := by
  constructor
  · intro h1 h2
    unfold processChunk detectStep detect_error
    split
    · split
      · next hg =>
        exfalso
        rcases hg with hg | hg
        · exact h1 hg
        · have hg' : s.groqClient = false := hg
          rw [hcl] at hg'
          exact Bool.noConfusion hg'
      · exact ⟨rfl, rfl, lastN_length_le 20 _⟩
    · next hng => exact absurd ⟨h1, h2⟩ hng
  · intro h0
    unfold processChunk detectStep detect_error
    split
    · next hg => exact absurd h0 hg.1
    · exact ⟨rfl, rfl⟩

/-- Concrete state for the C4 witness. -/
def c4s : AppState :=
  AppState.mk false true true none "ls /x" ["out1"] [] [] []

/-- Witness for C4: a `command not found` chunk fires exactly one
analysis request and clears the last command. -/
theorem detect_error_spec_witness :
    (processChunk c4s "bash: zzz: command not found").emits =
      [("ls /x", "out1bash: zzz: command not found")] ∧
    (processChunk c4s "bash: zzz: command not found").lastCommand = "" := by
  have h := (detect_error_spec c4s "bash: zzz: command not found" rfl).1
    (by decide) (by decide)
  exact ⟨by rw [h.1]; decide, h.2.1⟩

/-- C5 fails as stated: `"1;a"` contains no control byte at all, yet the
junk-stripping heuristics of `strip_ansi_codes` delete it entirely, so
decoding does not append it verbatim. -/
theorem clean_text_altered :
    (∀ c ∈ "1;a".data,
      c ≠ '\x1b' ∧ c ≠ '\x08' ∧ c ≠ '\x7f' ∧ c ≠ '\r') ∧
    decodeChunk [] "1;a" ≠ [] ++ "1;a".data := by decide

/-- C5 amended: text free of control bytes **and** of the 8-bit OSC
introducer `0x9D` **and** of `';'` (so that none of the six stripping
substitutions can fire) is appended to the buffer verbatim. -/
theorem clean_text_appended (buf : List Char) (t : String)
    (h : ∀ c ∈ t.data, c ≠ '\x1b' ∧ c ≠ '\x9d' ∧ c ≠ ';' ∧
      c ≠ '\x08' ∧ c ≠ '\x7f' ∧ c ≠ '\r') :
    decodeChunk buf t = buf ++ t.data := by
  unfold decodeChunk decodeChunkL
  rw [strip_ansi_codes_id
    (fun c hc => ⟨(h c hc).1, (h c hc).2.1, (h c hc).2.2.1⟩)]
  exact processClean_clean
    (fun c hc =>
      ⟨(h c hc).2.2.2.1, (h c hc).2.2.2.2.1, (h c hc).2.2.2.2.2⟩) buf

/-- Witness for the amended C5. -/
theorem clean_text_appended_witness :
    (∀ c ∈ "hello\nworld".data, c ≠ '\x1b' ∧ c ≠ '\x9d' ∧ c ≠ ';' ∧
      c ≠ '\x08' ∧ c ≠ '\x7f' ∧ c ≠ '\r') ∧
    decodeChunk "x".data "hello\nworld" = "x".data ++ "hello\nworld".data :=
  ⟨by decide, clean_text_appended "x".data "hello\nworld" (by decide)⟩

/-- C6 fails as stated: `"abc\rX"` decodes to line content `"abcX"`, not
`"Xbc"` — the attempted tk range delete in the lone-`\r` branch is empty
(see `crRewrite`), so nothing is overwritten. -/
theorem cr_overwrite_counterexample :
    decodeChunk [] "abc\rX" = "abcX".data ∧ "abcX".data ≠ "Xbc".data := by
  decide

/-- C6 amended: a carriage return not immediately followed by a line feed
leaves the buffer unchanged (the tk delete of the lone-`\r` branch
removes nothing), so `"abc\rX"` yields `"abcX"`; a `"\r\n"` pair is still
rendered as a single line break. -/
theorem cr_noop :
    (∀ buf cs, processClean buf ('\r' :: cs) = processClean buf cs) ∧
    decodeChunk [] "abc\rX" = "abcX".data ∧
    decodeChunk [] "a\r\nb" = "a\nb".data :=
  ⟨processClean_cr, by decide, by decide⟩

/-- C7 fails as stated: splitting the stream `"\x1b[2K"` in the middle of
the escape sequence changes the decoded buffer, because
`strip_ansi_codes` is applied per chunk and cannot recognize a sequence
spanning a chunk boundary. -/
theorem split_mid_escape_differs :
    ("\x1b[" ++ "2K" = "\x1b[2K") ∧
    decodeChunks [] ["\x1b[", "2K"] ≠ decodeChunks [] ["\x1b[2K"] := by
  decide

/-- C7 amended: for streams containing no escape introducer (`ESC` or
`0x9D`) and no `';'`, every partition into chunks — including splitting
immediately after a lone `\r` — decodes to the same final buffer as the
whole stream in one chunk. -/
theorem chunk_split_invariant (buf : List Char) (chunks : List (List Char))
    (h : ∀ c ∈ chunks.flatten, c ≠ '\x1b' ∧ c ≠ '\x9d' ∧ c ≠ ';') :
    decodeChunksL buf chunks = decodeChunkL buf chunks.flatten := by
  induction chunks generalizing buf with
  | nil =>
    show buf = processClean buf (strip_ansi_codes [])
    rw [strip_ansi_codes_id (by simp)]
    rfl
  | cons a as ih =>
    have ha : ∀ c ∈ a, c ≠ '\x1b' ∧ c ≠ '\x9d' ∧ c ≠ ';' := fun c hc =>
      h c (by rw [List.flatten_cons]; exact List.mem_append_left _ hc)
    have has : ∀ c ∈ as.flatten, c ≠ '\x1b' ∧ c ≠ '\x9d' ∧ c ≠ ';' :=
      fun c hc => h c (by rw [List.flatten_cons]; exact List.mem_append_right _ hc)
    have hall : ∀ c ∈ a ++ as.flatten, c ≠ '\x1b' ∧ c ≠ '\x9d' ∧ c ≠ ';' :=
      fun c hc => (List.mem_append.mp hc).elim (ha c) (has c)
    show decodeChunksL (decodeChunkL buf a) as = decodeChunkL buf (a :: as).flatten
    rw [ih (decodeChunkL buf a) has]
    unfold decodeChunkL
    rw [List.flatten_cons, strip_ansi_codes_id ha, strip_ansi_codes_id has,
      strip_ansi_codes_id hall]
    exact (processClean_append buf a as.flatten).symm

/-- Witness for the amended C7: a split right after a lone `\r`. -/
theorem chunk_split_invariant_witness :
    (∀ c ∈ ["ab\r".data, "\nc".data].flatten,
      c ≠ '\x1b' ∧ c ≠ '\x9d' ∧ c ≠ ';') ∧
    decodeChunksL [] ["ab\r".data, "\nc".data] =
      decodeChunkL [] ["ab\r".data, "\nc".data].flatten :=
  ⟨by decide, chunk_split_invariant [] ["ab\r".data, "\nc".data] (by decide)⟩

/-- C8: a chunk containing a recognized clear-screen sequence resets the
terminal buffer before the chunk is decoded (the result no longer depends
on the prior buffer; with the bare sequence the buffer is exactly empty,
i.e. the cursor is at the origin), while the output history keeps all
prior entries (whenever the 100-entry bound is not hit by the append). -/
theorem clear_screen_spec (s : AppState) (c : String)
    (hc : containsClear c = true) :
    (processChunk s c).terminalBuffer = decodeChunk [] c ∧
    (processChunk s c).outputBuffer = trimBuf (s.outputBuffer ++ [c]) ∧
    (s.outputBuffer.length ≤ 99 →
      (processChunk s c).outputBuffer = s.outputBuffer ++ [c]) := by
  refine ⟨?_, processChunk_outputBuffer s c, ?_⟩
  · rw [processChunk_terminalBuffer, if_pos hc]
  · intro hl
    rw [processChunk_outputBuffer]
    unfold trimBuf
    rw [if_neg]
    rw [List.length_append]
    simp only [List.length_cons, List.length_nil]
    omega

/-- Concrete state for the C8 witness. -/
def c8s : AppState :=
  AppState.mk false true true none "" ["h1"] "old".data [] []

/-- Witness for C8: a bare `ESC [2J` empties the buffer and the history
keeps its prior entry. -/
theorem clear_screen_spec_witness :
    (processChunk c8s "\x1b[2J").terminalBuffer = [] ∧
    (processChunk c8s "\x1b[2J").outputBuffer = ["h1", "\x1b[2J"] := by
  obtain ⟨ht, _, ho⟩ := clear_screen_spec c8s "\x1b[2J" (by decide)
  refine ⟨?_, ?_⟩
  · rw [ht]
    decide
  · rw [ho (by decide)]
    decide

/-- C9: the output history stays bounded by 100 entries under every
workflow operation, and whenever appending a chunk would exceed 100
entries the history is trimmed to exactly the most recent 50. -/
theorem history_bounded (s : AppState) (e : Ev)
    (h : s.outputBuffer.length ≤ 100) :
    (step s e).outputBuffer.length ≤ 100 ∧
    (∀ c, e = Ev.chunk c → 100 < (s.outputBuffer ++ [c]).length →
      (step s e).outputBuffer = lastN 50 (s.outputBuffer ++ [c]) ∧
      (step s e).outputBuffer.length = 50) := by
  cases e with
  | submit q => exact ⟨h, fun c hc => Ev.noConfusion hc⟩
  | arrive cmd => exact ⟨h, fun c hc => Ev.noConfusion hc⟩
  | fail m => exact ⟨h, fun c hc => Ev.noConfusion hc⟩
  | reject => exact ⟨h, fun c hc => Ev.noConfusion hc⟩
  | confirm =>
    refine ⟨?_, fun c hc => Ev.noConfusion hc⟩
    cases hp : s.pendingCommand with
    | none => simpa [step, hp] using h
    | some c =>
      by_cases hce : c = ""
      · simpa [step, hp, hce] using h
      · cases hpr : s.hasProcess <;>
          simp [step, hp, write_to_terminal, hpr, hce]
  | chunk c0 =>
    have hob : (step s (Ev.chunk c0)).outputBuffer =
        trimBuf (s.outputBuffer ++ [c0]) := processChunk_outputBuffer s c0
    have hlen : (s.outputBuffer ++ [c0]).length = s.outputBuffer.length + 1 := by
      simp
    constructor
    · rw [hob]
      unfold trimBuf
      split
      · rw [lastN, List.length_drop]
        omega
      · next hn =>
        rw [hlen] at hn
        omega
    · intro c' hc' hbig
      obtain rfl : c0 = c' := by injection hc'
      have hpos : 100 < (s.outputBuffer ++ [c0]).length := hbig
      constructor
      · rw [hob]
        unfold trimBuf
        rw [if_pos hpos]
      · rw [hob]
        unfold trimBuf
        rw [if_pos hpos]
        rw [lastN, List.length_drop, hlen]
        rw [hlen] at hpos
        omega

/-- Concrete state for the C9 witness: a history already at the bound. -/
def c9s : AppState :=
  AppState.mk false true true none "" (List.replicate 100 "o") [] [] []

/-- Witness for C9: the 101st entry triggers the trim to 50. -/
theorem history_bounded_witness :
    (step c9s (Ev.chunk "x")).outputBuffer.length ≤ 100 ∧
    (step c9s (Ev.chunk "x")).outputBuffer.length = 50 := by
  obtain ⟨h1, h2⟩ := history_bounded c9s (Ev.chunk "x") (by simp [c9s])
  exact ⟨h1, (h2 "x" rfl (by simp [c9s])).2⟩

/-- C10: with no Groq client configured, a keyword-matching chunk
dispatches no analysis and leaves `last_command` unchanged (so a later
matching chunk can still trigger analysis once a client exists). -/
theorem no_client_no_dispatch (s : AppState) (c : String)
    (hcl : s.groqClient = false) :
    (processChunk s c).emits = s.emits ∧
    (processChunk s c).lastCommand = s.lastCommand := by
  exact detectStep_no_client (midChunk s c) c hcl

/-- Concrete state for the C10 witness: error-matching chunk, nonempty
last command, no client. -/
def c10s : AppState :=
  AppState.mk false true false none "ls /x" [] [] [] []

/-- Witness for C10. -/
theorem no_client_no_dispatch_witness :
    (processChunk c10s "bash: error").emits = c10s.emits ∧
    (processChunk c10s "bash: error").lastCommand = c10s.lastCommand :=
  no_client_no_dispatch c10s "bash: error" rfl

end AiTerm
